import Mathlib

/-!
Verification of the cs1550 two-level FUSE filesystem (src/cs1550.c).

The disk image is modelled at the byte level: a disk is a function from
block numbers to 512-byte blocks, each block a `List Nat` of byte values.
The packed on-disk structures (root directory, subdirectory, index block)
are decoded from and encoded to raw bytes exactly as the C structs lay
them out on an LP64 little-endian platform: `int` is 4 bytes, `long` and
`size_t` are 8 bytes, names are NUL-padded fixed-size char arrays.
Derived constants: MAX_DIRS_IN_ROOT = (512-4)/17 = 29,
MAX_FILES_IN_DIR = (512-4)/29 = 17, MAX_ENTRIES_IN_INDEX_BLOCK = 64.

C `size_t`/`off_t` values are modelled as `Nat` (with the one observable
unsigned wrap, the read-size clamp, modelled explicitly mod 2^64), and the
`int` return values as `Int` with explicit truncation `toInt32` where a
64-bit value is returned through the `int` function type.
-/

set_option maxRecDepth 40000
set_option maxHeartbeats 1000000

namespace CS1550

/-- A disk block: a list of byte values.  Well-formed blocks have length 512
and entries < 256. -/
abbrev Block := List Nat

/-- The mount state: the open `.disk` image (block number to block bytes) and
the in-memory free-block bitmap (`static byte bitmap[1536]`, modelled as a
function from byte index to byte value). -/
structure Sys where
  disk : Nat → Block
  bitmap : Nat → Nat

def zeros512 : Block := List.replicate 512 0

/-- Little-endian encoding of a value into `w` bytes (C struct field layout
on x86-64). -/
def encLE : Nat → Nat → List Nat
  | 0, _ => []
  | w+1, v => v % 256 :: encLE w (v / 256)

/-- Little-endian decoding of a byte list. -/
def decLE : List Nat → Nat
  | [] => 0
  | b :: bs => b + 256 * decLE bs

/-- `strncpy(dest, src, w)` into a `w`-byte field: at most `w` bytes copied,
NUL padding when the source is shorter. -/
def pad (w : Nat) (l : List Nat) : List Nat :=
  l.take w ++ List.replicate (w - l.length) 0

/-- `strcmp(a, b) == 0` over byte lists; positions past the end of a list
read as NUL, matching the NUL-terminated C strings. -/
def cstrEq : List Nat → List Nat → Bool
  | [], [] => true
  | [], b :: _ => b == 0
  | a :: _, [] => a == 0
  | a :: as, b :: bs => if a ≠ b then false else if a == 0 then true else cstrEq as bs

/-- `strncmp(a, b, n) == 0` over byte lists, stopping at NUL or after `n`
characters. -/
def strneqB : List Nat → List Nat → Nat → Bool
  | _, _, 0 => true
  | a, b, n+1 =>
    if a.headD 0 ≠ b.headD 0 then false
    else if a.headD 0 == 0 then true
    else strneqB a.tail b.tail n

/-- Result of `sscanf(path, "/%[^/]/%[^.].%s", dir, fname, fext)`:
the token count and the three (possibly empty) fields. -/
structure Parsed where
  tokens : Nat
  dir : List Nat
  fname : List Nat
  fext : List Nat
  deriving DecidableEq

/-- The path scanner of every operation:
`sscanf(path, "/%[^/]/%[^.].%s", dir, fname, fext)`.  A `%[...]`
conversion fails on an empty match, stopping the scan; `%s` takes the rest
of the path (paths contain no whitespace). 47 is `/`, 46 is `.`. -/
def parsePath (p : List Nat) : Parsed :=
  match p with
  | 47 :: rest =>
    let dir := rest.takeWhile (fun c => c ≠ 47)
    if dir.isEmpty then ⟨0, [], [], []⟩
    else
      match rest.dropWhile (fun c => c ≠ 47) with
      | 47 :: rest2 =>
        let fn := rest2.takeWhile (fun c => c ≠ 46)
        if fn.isEmpty then ⟨1, dir, [], []⟩
        else
          match rest2.dropWhile (fun c => c ≠ 46) with
          | 46 :: rest3 =>
            if rest3.isEmpty then ⟨2, dir, fn, []⟩ else ⟨3, dir, fn, rest3⟩
          | _ => ⟨2, dir, fn, []⟩
      | _ => ⟨1, dir, [], []⟩
  | _ => ⟨0, [], [], []⟩

/-- One root-directory slot: `struct cs1550_directory` (9-byte `dname`,
8-byte `nStartBlock`). -/
structure DirSlot where
  dname : List Nat
  nStartBlock : Nat
  deriving DecidableEq

/-- One file slot: `struct cs1550_file_directory` (9-byte `fname`, 4-byte
`fext`, 8-byte `fsize`, 8-byte `nIndexBlock`). -/
structure FileSlot where
  fname : List Nat
  fext : List Nat
  fsize : Nat
  nIndexBlock : Nat
  deriving DecidableEq

/-- `struct cs1550_root_directory`: `nDirectories` plus 29 slots. -/
structure RootDir where
  nDirectories : Nat
  directories : List DirSlot
  deriving DecidableEq

/-- `struct cs1550_directory_entry`: `nFiles` plus 17 slots. -/
structure DirEnt where
  nFiles : Nat
  files : List FileSlot
  deriving DecidableEq

def encDirSlot (d : DirSlot) : List Nat := pad 9 d.dname ++ encLE 8 d.nStartBlock

def encFileSlot (f : FileSlot) : List Nat :=
  pad 9 f.fname ++ pad 4 f.fext ++ encLE 8 f.fsize ++ encLE 8 f.nIndexBlock

def catLists : List (List Nat) → List Nat
  | [] => []
  | l :: ls => l ++ catLists ls

/-- Byte layout of a root-directory block: 4-byte count, 29 packed 17-byte
slots, 15 padding bytes. -/
def encodeRoot (r : RootDir) : Block :=
  encLE 4 r.nDirectories ++ catLists (r.directories.map encDirSlot) ++ List.replicate 15 0

/-- Byte layout of a subdirectory block: 4-byte count, 17 packed 29-byte
slots, 15 padding bytes. -/
def encodeDir (d : DirEnt) : Block :=
  encLE 4 d.nFiles ++ catLists (d.files.map encFileSlot) ++ List.replicate 15 0

/-- Byte layout of an index block: 64 packed 8-byte entries. -/
def encodeLongs (l : List Nat) : Block := catLists (l.map (encLE 8))

def decDirSlots : Nat → List Nat → List DirSlot
  | 0, _ => []
  | k+1, b => ⟨b.take 9, decLE ((b.drop 9).take 8)⟩ :: decDirSlots k (b.drop 17)

def decFileSlots : Nat → List Nat → List FileSlot
  | 0, _ => []
  | k+1, b =>
    ⟨b.take 9, (b.drop 9).take 4, decLE ((b.drop 13).take 8), decLE ((b.drop 21).take 8)⟩
      :: decFileSlots k (b.drop 29)

def decLongs : Nat → List Nat → List Nat
  | 0, _ => []
  | k+1, b => decLE (b.take 8) :: decLongs k (b.drop 8)

/-- Reinterpret a block's bytes as a `cs1550_root_directory` (what the cast
in `get_root_dir` does). -/
def decodeRoot (b : Block) : RootDir := ⟨decLE (b.take 4), decDirSlots 29 (b.drop 4)⟩

/-- Reinterpret a block's bytes as a `cs1550_directory_entry` (what the cast
in `get_dir` does). -/
def decodeDir (b : Block) : DirEnt := ⟨decLE (b.take 4), decFileSlots 17 (b.drop 4)⟩

/-- Truncation of a 64-bit unsigned value through the `int` return type
(two's-complement wrap, as gcc on x86-64 does). -/
def toInt32 (n : Nat) : Int :=
  let m := n % 4294967296
  if m < 2147483648 then (m : Int) else (m : Int) - 4294967296

/-- `static const byte mask[]`, the array 128, 64, 32, 16, 8, 4, 2, 1:
a 1 in each bit position, MSB first. -/
def mask : List Nat := [128, 64, 32, 16, 8, 4, 2, 1]

/-- `is_bit_set(data, p)`: test bit `p` (MSB-first) of a bitmap byte. -/
def is_bit_set (data p : Nat) : Bool := (data &&& mask.getD p 0) != 0

/-- `set_bit(block_num)`: returns the C return code together with the updated
in-memory bitmap.  The guard is `block_num > DISK_BLOCKS`, i.e. `> 10240`.
(Negative block numbers would index outside the C array, which is undefined;
the model's domain is `Nat`.) -/
def set_bit (block_num : Nat) (bm : Nat → Nat) : Int × (Nat → Nat) :=
  if block_num > 10240 then (-1, bm)
  else
    let byte_num := block_num / 8
    let bit_num := block_num % 8
    (0, fun m => if m = byte_num then bm byte_num ||| mask.getD bit_num 0 else bm m)

/-- Update one byte of the bitmap. -/
def setByte (bm : Nat → Nat) (i v : Nat) : Nat → Nat :=
  fun m => if m = i then v else bm m

/-- `initBitmap()`: reads the last three blocks of the image into the
in-memory bitmap (`fread` of 1536 bytes starting at `BIT_MAP_LOCATION`),
then sets bit 0 (root) and the final three bits (the bitmap's own blocks). -/
def initBitmap (s : Sys) : Sys :=
  let bm : Nat → Nat := fun i =>
    if i < 512 then (s.disk 10237).getD i 0
    else if i < 1024 then (s.disk 10238).getD (i - 512) 0
    else (s.disk 10239).getD (i - 1024) 0
  let bm := setByte bm 0 (bm 0 ||| 128)
  let bm := setByte bm 1535 (bm 1535 ||| 4)
  let bm := setByte bm 1535 (bm 1535 ||| 2)
  let bm := setByte bm 1535 (bm 1535 ||| 1)
  { s with bitmap := bm }

/-- The scan of `find_free_block`: the nested byte/bit loops visit the global
bit indices `k = 8*byte_num + bit_num` in increasing order `0..12287` and
break at the first clear bit; if both loops run out, `-ENOSPC` is returned.
`fuel` counts the bits still to visit (initially 12288). -/
def scanBits (bm : Nat → Nat) : Nat → Nat → Int
  | 0, _ => -28
  | fuel+1, k =>
    if is_bit_set (bm (k / 8)) (k % 8) then scanBits bm fuel (k + 1)
    else (k : Int)

/-- `find_free_block()`: lazily initializes the bitmap when its own last bit
is clear, then scans for the first clear bit. -/
def find_free_block (s : Sys) : Int × Sys :=
  let s1 := if is_bit_set (s.bitmap 1535) 7 then s else initBitmap s
  (scanBits s1.bitmap 12288 0, s1)

/-- `write_disk_block(block_num, block)`: guard is `block_num > DISK_BLOCKS`;
otherwise seek and write the block (the `fseek`/`fwrite` of an open 5 MiB
image succeed, and a write at block 10240 appends past the image end). -/
def write_disk_block (s : Sys) (block_num : Nat) (block : Block) : Int × Sys :=
  if block_num > 10240 then (-1, s)
  else (0, { s with disk := fun m => if m = block_num then block else s.disk m })

/-- `get_block(block_num)`: guard is `block_num > DISK_BLOCKS`; in-range
reads of the image succeed. -/
def get_block (s : Sys) (block_num : Nat) : Option Block :=
  if block_num > 10240 then none else some (s.disk block_num)

/-- The unchecked dereference of `get_block`'s result used by `get_inode`
and `get_disk_block` call sites that never test for NULL: out-of-range
block numbers (where C would dereference NULL) are given as a zero block. -/
def diskBlockD (s : Sys) (block_num : Nat) : Block :=
  if block_num > 10240 then zeros512 else s.disk block_num

/-- `ceiling(a,b)` macro: `((a) / (b)) + (((a) % (b)) != 0)`. -/
def ceilingC (a b : Nat) : Nat := a / b + (if a % b ≠ 0 then 1 else 0)

/-- Result of the block-locating loop shared by `cs1550_read` and
`cs1550_write` (`cur_block_addr`, `cur_block_index`, `cur_pos`, the
mutated `offset` after the loop, and the loop counter `i`). -/
structure Walk where
  addr : Nat
  idx : Nat
  pos : Nat
  offRem : Nat
  scanned : Nat
  deriving DecidableEq

/-- The locating loop
`for(i = 0; inode->entries[i] != 0 && i < 64; i++)` with body
`if(offset <= 512) break-and-record; offset -= 512`.
`fuel` is `64 - i`, so fuel 0 is the `i = 64` loop exit; on either loop
exit without break, `cur_block_addr`, `cur_block_index` and `cur_pos` keep
their initial zero values while `offset` keeps its mutated value. -/
def walkLoop (entries : List Nat) : Nat → Nat → Nat → Walk
  | 0, i, off => ⟨0, 0, 0, off, i⟩
  | fuel+1, i, off =>
    if entries.getD i 0 ≠ 0 then
      if off ≤ 512 then ⟨entries.getD i 0, i, off, off, i⟩
      else walkLoop entries fuel (i + 1) (off - 512)
    else ⟨0, 0, 0, off, i⟩

/-- The copy loop of `cs1550_read`:
`for(i = 0; i < size && file_block->data[cur_pos] != 0; i++)` with body
`buf[i] = file_block->data[cur_pos++]` followed by the boundary test
`cur_pos != 0 && cur_pos % 513 == 0` which, when it fires, advances to the
next index entry (without resetting `cur_pos`) or breaks on a zero entry.
`fuel` is `size - i`; the returned list is the contents of `buf`. -/
def readLoop (s : Sys) (entries : List Nat) : Nat → Nat → Nat → Block → List Nat → List Nat
  | 0, _, _, _, acc => acc
  | fuel+1, pos, bIdx, data, acc =>
    if data.getD pos 0 = 0 then acc
    else
      let c := data.getD pos 0
      let pos' := pos + 1
      if pos' ≠ 0 ∧ pos' % 513 = 0 then
        if entries.getD (bIdx + 1) 0 ≠ 0 then
          readLoop s entries fuel pos' (bIdx + 1)
            (diskBlockD s (entries.getD (bIdx + 1) 0)) (acc ++ [c])
        else acc ++ [c]
      else readLoop s entries fuel pos' bIdx data (acc ++ [c])

/-- The loop state of `cs1550_write`'s copy loop: the mutated globals
(disk and bitmap), the in-memory index entries, the current data block's
address, index-slot number, contents and in-block position. -/
structure WSt where
  sys : Sys
  entries : List Nat
  addr : Nat
  idx : Nat
  data : Block
  pos : Nat

/-- The copy loop of `cs1550_write`: `for(i = 0; i < size; i++)` with body
`file_block->data[cur_pos] = buf[i]` followed by the boundary test
`cur_pos != 0 && cur_pos % 512 == 0`; when it fires, the current block is
persisted and the next index entry is loaded, or a fresh block is
allocated (via `find_free_block`/`set_bit`) and recorded, with `cur_pos`
reset to 0; otherwise `cur_pos++`.  A store at `cur_pos = 512` leaves the
512-byte block unchanged (the C write lands past the array, on heap bytes
that are never persisted).  An ENOSPC result from `find_free_block` would
be used as a block number in C (undefined for the negative bitmap index);
the model clamps it with `toNat`. -/
def writeLoop : List Nat → WSt → WSt
  | [], st => st
  | c :: rest, st =>
    let d1 := st.data.set st.pos c
    if st.pos ≠ 0 ∧ st.pos % 512 = 0 then
      let (_, s1) := write_disk_block st.sys st.addr d1
      if st.entries.getD (st.idx + 1) 0 ≠ 0 then
        writeLoop rest ⟨s1, st.entries, st.entries.getD (st.idx + 1) 0, st.idx + 1,
          diskBlockD s1 (st.entries.getD (st.idx + 1) 0), 0⟩
      else
        let (fb, s2) := find_free_block s1
        let (_, bm2) := set_bit fb.toNat s2.bitmap
        let s3 := { s2 with bitmap := bm2 }
        writeLoop rest ⟨s3, st.entries.set (st.idx + 1) fb.toNat, fb.toNat, st.idx + 1,
          List.replicate 512 0, 0⟩
    else
      writeLoop rest ⟨st.sys, st.entries, st.addr, st.idx, d1, st.pos + 1⟩

def defDirSlot : DirSlot := ⟨[], 0⟩
def defFileSlot : FileSlot := ⟨[], [], 0, 0⟩

/-- The linear search `for(i = 0; i < n; i++) if(p i) break;`: the first
index satisfying `p`, or `n` itself when none does (the loop counter's
final value, which the callers use unchecked). -/
def findIdxOr (n : Nat) (p : Nat → Bool) : Nat :=
  match (List.range n).find? p with
  | some i => i
  | none => n

/-- The file search of `cs1550_read`/`cs1550_write`: first slot matching
`strncmp(fname,...,8)` and `strncmp(fext,...,3)`, yielding its
`nIndexBlock` and `fsize`; both stay 0 when no slot matches. -/
def findFileRW (d : DirEnt) (fn fe : List Nat) : Nat × Nat :=
  match (List.range d.nFiles).find? (fun i =>
      strneqB fn ((d.files.getD i defFileSlot).fname) 8 &&
      strneqB fe ((d.files.getD i defFileSlot).fext) 3) with
  | some i => ((d.files.getD i defFileSlot).nIndexBlock, (d.files.getD i defFileSlot).fsize)
  | none => (0, 0)

/-- `cs1550_read(path, buf, size, offset)`: returns the C return value and
the bytes stored into `buf`.  The slot search over `root->directories` has
no miss check: on a miss the loop counter equals `nDirectories` and the
(zero-filled) slot there is read; slot 29 would be the struct's padding,
read here as the zero `defDirSlot`. -/
def cs1550_read (s : Sys) (path : List Nat) (size offset : Nat) : Int × List Nat :=
  if size = 0 then (0, [])
  else
    let pr := parsePath path
    if pr.tokens < 3 then (-21, [])
    else if pr.dir.length > 8 ∨ pr.fname.length > 8 ∨ pr.fext.length > 3 then (-36, [])
    else
      let root := decodeRoot (s.disk 0)
      let di := findIdxOr root.nDirectories
        (fun i => cstrEq pr.dir ((root.directories.getD i defDirSlot).dname))
      let subStart := (root.directories.getD di defDirSlot).nStartBlock
      match get_block s subStart with
      | none => (-2, [])
      | some subBytes =>
        let subDir := decodeDir subBytes
        let ff := findFileRW subDir pr.fname pr.fext
        if ff.1 = 0 then (-2, [])
        else
          let entries := decLongs 64 (diskBlockD s ff.1)
          let w := walkLoop entries 64 0 offset
          let fileBlock := diskBlockD s w.addr
          let size2 :=
            if size + w.offRem > ff.2 then
              (((ff.2 : Int) - (w.offRem : Int)).emod 18446744073709551616).toNat
            else size
          (toInt32 size2, readLoop s entries size2 w.pos w.idx fileBlock [])

/-- `cs1550_write(path, buf, size, offset)`: returns the C return value and
the final mount state.  The size clamp is absent; `sub_dir->files[i].fsize`
is updated in memory during the file search, before the `offset > fsize`
check; the three `write_disk_block` calls at the end persist the
subdirectory, the index block and the final data block. -/
def cs1550_write (s : Sys) (path buf : List Nat) (size offset : Nat) : Int × Sys :=
  if size = 0 then (-1, s)
  else
    let pr := parsePath path
    if pr.tokens < 3 then (-2, s)
    else if pr.dir.length > 8 ∨ pr.fname.length > 8 ∨ pr.fext.length > 3 then (-36, s)
    else
      let root := decodeRoot (s.disk 0)
      let di := findIdxOr root.nDirectories
        (fun i => strneqB pr.dir ((root.directories.getD i defDirSlot).dname) 8)
      let subStart := (root.directories.getD di defDirSlot).nStartBlock
      match get_block s subStart with
      | none => (-2, s)
      | some subBytes =>
        let subDir := decodeDir subBytes
        let fi? := (List.range subDir.nFiles).find? (fun i =>
          strneqB pr.fname ((subDir.files.getD i defFileSlot).fname) 8 &&
          strneqB pr.fext ((subDir.files.getD i defFileSlot).fext) 3)
        let fInode := match fi? with
          | some i => (subDir.files.getD i defFileSlot).nIndexBlock
          | none => 0
        let fOld := match fi? with
          | some i => (subDir.files.getD i defFileSlot).fsize
          | none => 0
        let subDir2 := match fi? with
          | some i =>
            let sl := subDir.files.getD i defFileSlot
            ⟨subDir.nFiles, subDir.files.set i
              ⟨sl.fname, sl.fext, max fOld (size + offset), sl.nIndexBlock⟩⟩
          | none => subDir
        if offset > fOld then (-27, s)
        else if fInode = 0 then (-2, s)
        else
          let entries := decLongs 64 (diskBlockD s fInode)
          let end_pos := fOld + size
          let _blocks_needed := ceilingC end_pos 512
          let w := walkLoop entries 64 0 offset
          let fileBlock := diskBlockD s w.addr
          let stF := writeLoop buf ⟨s, entries, w.addr, w.idx, fileBlock, w.pos⟩
          let (_, sA) := write_disk_block stF.sys subStart (encodeDir subDir2)
          let (_, sB) := write_disk_block sA fInode (encodeLongs stF.entries)
          let (_, sC) := write_disk_block sB stF.addr stF.data
          (toInt32 size, sC)

/-- `cs1550_mknod(path)`: creates a file entry in a subdirectory.  The slot
search over `root->directories` has no miss check (only `get_dir`'s NULL
result is tested), so on a miss the zero-filled slot at index
`nDirectories` is read and block 0 — the root block itself — is loaded and
treated as the subdirectory.  The `strncpy` of `fext` copies 9 bytes into
the 4-byte field, overrunning into `fsize`'s low bytes with NULs; `fsize`
was just assigned 0, so the stored slot is as modelled.  The ENOSPC test
`!index_block_num || !data_block_num` compares against 0, which
`find_free_block` never returns. -/
def cs1550_mknod (s : Sys) (path : List Nat) : Int × Sys :=
  let pr := parsePath path
  if pr.tokens < 3 then (-1, s)
  else if pr.dir.length > 8 ∨ pr.fname.length > 8 ∨ pr.fext.length > 3 then (-36, s)
  else
    match get_block s 0 with
    | none => (-2, s)
    | some rootBytes =>
      let root := decodeRoot rootBytes
      let di := findIdxOr root.nDirectories
        (fun i => cstrEq pr.dir ((root.directories.getD i defDirSlot).dname))
      let subStart := (root.directories.getD di defDirSlot).nStartBlock
      match get_block s subStart with
      | none => (-2, s)
      | some subBytes =>
        let subDir := decodeDir subBytes
        if ((List.range subDir.nFiles).find? (fun i =>
            strneqB pr.fname ((subDir.files.getD i defFileSlot).fname) 8 &&
            strneqB pr.fext ((subDir.files.getD i defFileSlot).fext) 3)).isSome then
          (-17, s)
        else if subDir.nFiles = 17 then (-28, s)
        else
          let (ib, s1) := find_free_block s
          let (_, bmA) := set_bit ib.toNat s1.bitmap
          let s2 := { s1 with bitmap := bmA }
          let (db, s3) := find_free_block s2
          let (_, bmB) := set_bit db.toNat s3.bitmap
          let s4 := { s3 with bitmap := bmB }
          if ib = 0 ∨ db = 0 then (-28, s4)
          else
            let slot : FileSlot := ⟨pad 9 pr.fname, pad 4 pr.fext, 0, ib.toNat⟩
            let subDir2 : DirEnt := ⟨subDir.nFiles + 1, subDir.files.set subDir.nFiles slot⟩
            let idxE := (List.replicate 64 0).set 0 db.toNat
            let (_, s5) := write_disk_block s4 subStart (encodeDir subDir2)
            let (_, s6) := write_disk_block s5 ib.toNat (encodeLongs idxE)
            let (_, s7) := write_disk_block s6 db.toNat (List.replicate 512 0)
            (0, s7)

/-! Concrete mount states used by the theorems: a root directory holding one
subdirectory `d` at block 1; inside it one file `f.t` whose index block is
block 3 and whose first data block is block 4.  `fsz` is the stored file
size, `e1` the second index entry, `d4` the first data block's contents. -/

/-- The byte string of the path `/d/f.t` (d = 100, f = 102, t = 116). -/
def pathDFT : List Nat := [47, 100, 47, 102, 46, 116]

def rootF : RootDir :=
  ⟨1, ⟨[100, 0, 0, 0, 0, 0, 0, 0, 0], 1⟩ :: List.replicate 28 ⟨List.replicate 9 0, 0⟩⟩

def rootB : Block := encodeRoot rootF

def dirF (fsz : Nat) : DirEnt :=
  ⟨1, ⟨[102, 0, 0, 0, 0, 0, 0, 0, 0], [116, 0, 0, 0], fsz, 3⟩
      :: List.replicate 16 ⟨List.replicate 9 0, List.replicate 4 0, 0, 0⟩⟩

def idxF (e1 : Nat) : List Nat := 4 :: e1 :: List.replicate 62 0

/-- An initialized in-memory bitmap with blocks 0..5 and the bitmap's three
blocks marked used. -/
def bmF : Nat → Nat := fun i => if i = 0 then 252 else if i = 1535 then 7 else 0

def sysF (fsz e1 : Nat) (d4 : Block) : Sys :=
  ⟨fun n =>
    if n = 0 then rootB
    else if n = 1 then encodeDir (dirF fsz)
    else if n = 3 then encodeLongs (idxF e1)
    else if n = 4 then d4
    else zeros512,
   bmF⟩

/-- A freshly mounted, freshly created image: every block zeroed, the
bitmap as `initBitmap` leaves it (bit 0 and the final three bits set). -/
def freshSys : Sys :=
  ⟨fun _ => zeros512, fun i => if i = 0 then 128 else if i = 1535 then 7 else 0⟩

/-- Block 4 contents for the C4 scenario: the five bytes of `Hello`,
then zeros (a file of `fsize` 5). -/
def helloBlock : Block := [72, 101, 108, 108, 111] ++ List.replicate 507 0

/-! Round-trip lemmas for the byte-level struct layout. -/

theorem encLE_length (w v : Nat) : (encLE w v).length = w := by
  induction w generalizing v with
  | zero => rfl
  | succ w ih => simp [encLE, ih]

theorem decLE_encLE (w v : Nat) : decLE (encLE w v) = v % 256 ^ w := by
  induction w generalizing v with
  | zero => simp [encLE, decLE]; omega
  | succ w ih =>
    simp only [encLE, decLE, ih]
    rw [pow_succ']
    exact Nat.mod_mul.symm

theorem decLE_encLE_of_lt (w v : Nat) (h : v < 256 ^ w) : decLE (encLE w v) = v := by
  rw [decLE_encLE, Nat.mod_eq_of_lt h]

theorem pad_length (w : Nat) (l : List Nat) : (pad w l).length = w := by
  simp [pad]
  omega

theorem pad_eq (w : Nat) (l : List Nat) (h : l.length = w) : pad w l = l := by
  subst h
  simp [pad, List.take_length]

/-- A file slot as it sits decoded from a block: fixed-width name fields and
field values that fit their widths. -/
def wfFileSlot (f : FileSlot) : Prop :=
  f.fname.length = 9 ∧ f.fext.length = 4 ∧ f.fsize < 256 ^ 8 ∧ f.nIndexBlock < 256 ^ 8

theorem decFileSlots_cat (fs : List FileSlot) (rest : List Nat)
    (h : ∀ f ∈ fs, wfFileSlot f) :
    decFileSlots fs.length (catLists (fs.map encFileSlot) ++ rest) = fs := by
  induction fs generalizing rest with
  | nil => rfl
  | cons f fs ih =>
    obtain ⟨h1, h2, h3, h4⟩ := h f (by simp)
    have e : encFileSlot f ++ (catLists (fs.map encFileSlot) ++ rest) =
        f.fname ++ (f.fext ++ (encLE 8 f.fsize ++ (encLE 8 f.nIndexBlock ++
          (catLists (fs.map encFileSlot) ++ rest)))) := by
      simp [encFileSlot, pad_eq _ _ h1, pad_eq _ _ h2]
    simp only [List.map_cons, catLists, List.length_cons, decFileSlots, List.append_assoc]
    rw [e]
    have d9 : (f.fname ++ (f.fext ++ (encLE 8 f.fsize ++ (encLE 8 f.nIndexBlock ++
        (catLists (fs.map encFileSlot) ++ rest))))).drop 9 =
        f.fext ++ (encLE 8 f.fsize ++ (encLE 8 f.nIndexBlock ++
          (catLists (fs.map encFileSlot) ++ rest))) := List.drop_left' h1
    have d13 : (f.fname ++ (f.fext ++ (encLE 8 f.fsize ++ (encLE 8 f.nIndexBlock ++
        (catLists (fs.map encFileSlot) ++ rest))))).drop 13 =
        encLE 8 f.fsize ++ (encLE 8 f.nIndexBlock ++
          (catLists (fs.map encFileSlot) ++ rest)) := by
      have : (13 : Nat) = 9 + 4 := by norm_num
      rw [this, ← List.drop_drop, d9]
      exact List.drop_left' h2
    have d21 : (f.fname ++ (f.fext ++ (encLE 8 f.fsize ++ (encLE 8 f.nIndexBlock ++
        (catLists (fs.map encFileSlot) ++ rest))))).drop 21 =
        encLE 8 f.nIndexBlock ++ (catLists (fs.map encFileSlot) ++ rest) := by
      have : (21 : Nat) = 13 + 8 := by norm_num
      rw [this, ← List.drop_drop, d13]
      exact List.drop_left' (encLE_length 8 f.fsize)
    have d29 : (f.fname ++ (f.fext ++ (encLE 8 f.fsize ++ (encLE 8 f.nIndexBlock ++
        (catLists (fs.map encFileSlot) ++ rest))))).drop 29 =
        catLists (fs.map encFileSlot) ++ rest := by
      have : (29 : Nat) = 21 + 8 := by norm_num
      rw [this, ← List.drop_drop, d21]
      exact List.drop_left' (encLE_length 8 f.nIndexBlock)
    rw [List.take_left' h1, d9, d13, d21, d29]
    rw [List.take_left' h2, List.take_left' (encLE_length 8 f.fsize),
      List.take_left' (encLE_length 8 f.nIndexBlock)]
    rw [decLE_encLE_of_lt _ _ h3, decLE_encLE_of_lt _ _ h4]
    rw [ih _ (fun g hg => h g (by simp [hg]))]

theorem decodeDir_encodeDir (d : DirEnt) (hn : d.nFiles < 256 ^ 4)
    (hl : d.files.length = 17) (hw : ∀ f ∈ d.files, wfFileSlot f) :
    decodeDir (encodeDir d) = d := by
  obtain ⟨n, fs⟩ := d
  simp only [encodeDir, decodeDir]
  have t4 : (encLE 4 n ++ (catLists (fs.map encFileSlot) ++ List.replicate 15 0)).take 4 =
      encLE 4 n := List.take_left' (encLE_length 4 n)
  have d4 : (encLE 4 n ++ (catLists (fs.map encFileSlot) ++ List.replicate 15 0)).drop 4 =
      catLists (fs.map encFileSlot) ++ List.replicate 15 0 :=
    List.drop_left' (encLE_length 4 n)
  rw [List.append_assoc, t4, d4, decLE_encLE_of_lt _ _ hn]
  simp only [DirEnt.mk.injEq, true_and]
  have := decFileSlots_cat fs (List.replicate 15 0) hw
  rw [hl] at this
  exact this

theorem decLongs_cat (l : List Nat) (rest : List Nat) (h : ∀ x ∈ l, x < 256 ^ 8) :
    decLongs l.length (catLists (l.map (encLE 8)) ++ rest) = l := by
  induction l generalizing rest with
  | nil => rfl
  | cons x xs ih =>
    simp only [List.map_cons, catLists, List.length_cons, decLongs, List.append_assoc]
    rw [List.take_left' (encLE_length 8 x), List.drop_left' (encLE_length 8 x),
      decLE_encLE_of_lt _ _ (h x (by simp)), ih _ (fun y hy => h y (by simp [hy]))]

/-- Writing the bytes of `b` into `data` at consecutive positions starting
at `p` (`List.set` leaves the list unchanged at out-of-range positions,
exactly as the C heap write past the block is never persisted). -/
def setSeq (data : List Nat) (p : Nat) : List Nat → List Nat
  | [] => data
  | c :: rest => setSeq (data.set p c) (p + 1) rest

theorem getD_set_self (l : List Nat) (i v : Nat) (h : i < l.length) :
    (l.set i v).getD i 0 = v := by
  induction l generalizing i with
  | nil => simp at h
  | cons a l ih =>
    cases i with
    | zero => rfl
    | succ i => exact ih i (by simpa using h)

theorem getD_set_ne (l : List Nat) (i j v : Nat) (h : i ≠ j) :
    (l.set i v).getD j 0 = l.getD j 0 := by
  induction l generalizing i j with
  | nil => simp [List.set]
  | cons a l ih =>
    cases i with
    | zero =>
      cases j with
      | zero => exact absurd rfl h
      | succ j => rfl
    | succ i =>
      cases j with
      | zero => rfl
      | succ j => exact ih i j (by omega)

theorem setSeq_length (b : List Nat) (data : List Nat) (p : Nat) :
    (setSeq data p b).length = data.length := by
  induction b generalizing data p with
  | nil => rfl
  | cons c rest ih => simp [setSeq, ih]

theorem setSeq_getD_lt (b : List Nat) (data : List Nat) (p j : Nat) (h : j < p) :
    (setSeq data p b).getD j 0 = data.getD j 0 := by
  induction b generalizing data p with
  | nil => rfl
  | cons c rest ih =>
    rw [setSeq, ih _ _ (by omega), getD_set_ne _ _ _ _ (by omega)]

theorem setSeq_getD_at (b : List Nat) (data : List Nat) (p i : Nat)
    (hi : i < b.length) (hlen : p + b.length ≤ data.length) :
    (setSeq data p b).getD (p + i) 0 = b.getD i 0 := by
  induction b generalizing data p i with
  | nil => simp at hi
  | cons c rest ih =>
    cases i with
    | zero =>
      rw [setSeq, Nat.add_zero, setSeq_getD_lt _ _ _ _ (by omega)]
      exact getD_set_self _ _ _ (by simp only [List.length_cons] at hlen; omega)
    | succ i =>
      have : p + (i + 1) = (p + 1) + i := by omega
      rw [setSeq, this, ih _ _ _ (by simpa using hi)
        (by simp only [List.length_set]; simp only [List.length_cons] at hlen; omega)]
      rfl

/-- Within a single block (all positions below 512) the write loop is a
plain sequence of byte stores: nothing is persisted mid-loop, no block is
advanced, and the position ends at `pos + b.length`. -/
theorem writeLoop_inblock (b : List Nat) (st : WSt) (h : st.pos + b.length ≤ 512) :
    writeLoop b st =
      ⟨st.sys, st.entries, st.addr, st.idx, setSeq st.data st.pos b, st.pos + b.length⟩ := by
  induction b generalizing st with
  | nil => rfl
  | cons c rest ih =>
    have hlt : st.pos < 512 := by simp at h; omega
    have hcond : ¬(st.pos ≠ 0 ∧ st.pos % 512 = 0) := by
      rw [Nat.mod_eq_of_lt hlt]
      omega
    rw [writeLoop, if_neg hcond,
      ih ⟨st.sys, st.entries, st.addr, st.idx, st.data.set st.pos c, st.pos + 1⟩
        (by simp at h ⊢; omega)]
    simp [setSeq]
    omega

/-- When every byte it meets is nonzero and the scan stays inside one block,
the read loop delivers exactly the bytes at `pos..pos + n - 1`. -/
theorem readLoop_delivers (b : List Nat) (s : Sys) (entries : List Nat)
    (pos bIdx : Nat) (data : Block) (acc : List Nat)
    (hreg : pos + b.length ≤ 512)
    (hdat : ∀ i, i < b.length → data.getD (pos + i) 0 = b.getD i 0)
    (hnz : ∀ x ∈ b, x ≠ 0) :
    readLoop s entries b.length pos bIdx data acc = acc ++ b := by
  induction b generalizing pos acc with
  | nil => simp [readLoop]
  | cons c rest ih =>
    have h0 : data.getD pos 0 = c := by simpa using hdat 0 (by simp)
    have hc : c ≠ 0 := hnz c (by simp)
    have hcond : ¬(pos + 1 ≠ 0 ∧ (pos + 1) % 513 = 0) := by
      have : pos + 1 < 513 := by simp at hreg; omega
      rw [Nat.mod_eq_of_lt this]
      omega
    rw [List.length_cons, readLoop, if_neg (by rw [h0]; exact hc)]
    simp only [h0, if_neg hcond]
    rw [ih (pos + 1) (acc ++ [c]) (by simp at hreg ⊢; omega)
      (fun i hi => by
        have : pos + 1 + i = pos + (i + 1) := by omega
        rw [this, hdat (i + 1) (by simpa using hi)]
        rfl)
      (fun x hx => hnz x (by simp [hx]))]
    simp

/-- Whatever the remaining count, the read loop stops at a zero data byte. -/
theorem readLoop_stop (s : Sys) (entries : List Nat) (fuel pos bIdx : Nat)
    (data : Block) (acc : List Nat) (h : data.getD pos 0 = 0) :
    readLoop s entries fuel pos bIdx data acc = acc := by
  cases fuel with
  | zero => rfl
  | succ fuel => rw [readLoop, if_pos h]

/-- A block is clear in the in-memory bitmap (MSB-first bit order). -/
def bitClear (bm : Nat → Nat) (k : Nat) : Prop :=
  is_bit_set (bm (k / 8)) (k % 8) = false

instance (bm : Nat → Nat) (k : Nat) : Decidable (bitClear bm k) := by
  unfold bitClear
  infer_instance

theorem scanBits_found (bm : Nat → Nat) (fuel k m : Nat) (hk : k ≤ m)
    (hm : m < k + fuel) (hc : bitClear bm m)
    (hmin : ∀ j, k ≤ j → j < m → ¬ bitClear bm j) :
    scanBits bm fuel k = (m : Int) := by
  induction fuel generalizing k with
  | zero => omega
  | succ fuel ih =>
    rcases Nat.eq_or_lt_of_le hk with he | hlt
    · subst he
      rw [scanBits, if_neg (by unfold bitClear at hc; simp [hc])]
    · have hset : ¬ bitClear bm k := hmin k le_rfl hlt
      unfold bitClear at hset
      rw [scanBits, if_pos (by
        cases hb : is_bit_set (bm (k / 8)) (k % 8)
        · exact absurd hb hset
        · rfl)]
      exact ih (k + 1) hlt (by omega) (fun j hj hj2 => hmin j (by omega) hj2)

theorem scanBits_none (bm : Nat → Nat) (fuel k : Nat)
    (h : ∀ j, k ≤ j → j < k + fuel → ¬ bitClear bm j) :
    scanBits bm fuel k = -28 := by
  induction fuel generalizing k with
  | zero => rfl
  | succ fuel ih =>
    have hset : ¬ bitClear bm k := h k le_rfl (by omega)
    unfold bitClear at hset
    rw [scanBits, if_pos (by
      cases hb : is_bit_set (bm (k / 8)) (k % 8)
      · exact absurd hb hset
      · rfl)]
    exact ih (k + 1) (fun j hj hj2 => h j (by omega) (by omega))

/-- Decoding the index block `idxF e1` after encoding gives it back. -/
theorem decLongs_idxF (e1 : Nat) (h : e1 < 256 ^ 8) :
    decLongs 64 (encodeLongs (idxF e1)) = idxF e1 := by
  have hl : (idxF e1).length = 64 := by simp [idxF]
  have h2 := decLongs_cat (idxF e1) [] (by
    intro x hx
    simp [idxF] at hx
    rcases hx with h1 | h1 | h1 <;> simp [h1]
    omega)
  rw [hl, List.append_nil] at h2
  rw [encodeLongs]
  exact h2

/-! Evaluation lemmas for the concrete mount states. -/

theorem parse_DFT : parsePath pathDFT = ⟨3, [100], [102], [116]⟩ := rfl

theorem decodeRoot_rootB : decodeRoot rootB = rootF := by decide

theorem decodeDir_dirF (fsz : Nat) (h : fsz < 256 ^ 8) :
    decodeDir (encodeDir (dirF fsz)) = dirF fsz := by
  apply decodeDir_encodeDir
  · simp [dirF]
  · simp [dirF]
  · intro f hf
    simp [dirF] at hf
    rcases hf with h1 | h1
    · simp [h1, wfFileSlot]
      exact h
    · simp [h1, wfFileSlot]

/-- For any offset inside the first block the locating loop settles on index
entry 0 with `cur_pos = offset` (note that offset 512 is accepted here,
position 512 being one past the block's 512 bytes). -/
theorem walk_first (e1 off : Nat) (h : off ≤ 512) :
    walkLoop (idxF e1) 64 0 off = ⟨4, 0, off, off, 0⟩ := by
  rw [show (64 : Nat) = 63 + 1 from rfl, walkLoop]
  simp [idxF, h]

/-- At offset 600 with a single index entry, the locating loop walks past
entry 0, meets the zero entry 1, and exits with `cur_block_addr = 0`,
`cur_pos = 0` and the offset reduced to 88. -/
theorem walk_c3 : walkLoop (idxF 0) 64 0 600 = ⟨0, 0, 0, 88, 1⟩ := by decide

theorem findFileRW_dirF (g : Nat) : findFileRW (dirF g) [102] [116] = (3, g) := by
  simp [findFileRW, dirF, defFileSlot, strneqB, List.range_succ, List.range_zero, List.find?]

theorem diskBlockD_sysF3 (fsz e1 : Nat) (d4 : Block) :
    diskBlockD (sysF fsz e1 d4) 3 = encodeLongs (idxF e1) := by
  simp [diskBlockD, sysF]

theorem diskBlockD_sysF4 (fsz e1 : Nat) (d4 : Block) :
    diskBlockD (sysF fsz e1 d4) 4 = d4 := by
  simp [diskBlockD, sysF]

theorem sysF_disk0 (fsz e1 : Nat) (d4 : Block) : (sysF fsz e1 d4).disk 0 = rootB := by
  simp [sysF]

theorem get_block_sysF1 (fsz e1 : Nat) (d4 : Block) :
    get_block (sysF fsz e1 d4) 1 = some (encodeDir (dirF fsz)) := by
  simp [get_block, sysF]

theorem toInt32_small (n : Nat) (h : n < 2147483648) : toInt32 n = (n : Int) := by
  have h2 : n < 4294967296 := by omega
  simp [toInt32, Nat.mod_eq_of_lt h2, h]

/-- Evaluation of `cs1550_read` on the one-file mount state for an offset
inside the first data block: the call reaches the copy loop on block 4 with
the clamped size (clamping computed in `size_t`, so `fsize - offset`
underflows when `offset > fsize`). -/
theorem read_sysF_firstblock (fsz e1 : Nat) (d4 : Block) (size offset : Nat)
    (hs : size ≠ 0) (hf : fsz < 256 ^ 8) (he : e1 < 256 ^ 8) (ho : offset ≤ 512) :
    cs1550_read (sysF fsz e1 d4) pathDFT size offset =
      (let size2 := if size + offset > fsz then
          (((fsz : Int) - (offset : Int)).emod 18446744073709551616).toNat else size
       (toInt32 size2, readLoop (sysF fsz e1 d4) (idxF e1) size2 offset 0 d4 [])) := by
  have hd : decodeDir (encodeDir (dirF fsz)) = dirF fsz := decodeDir_dirF fsz hf
  simp only [cs1550_read, parse_DFT, hs, if_false]
  norm_num [sysF_disk0, get_block_sysF1, decodeRoot_rootB, findIdxOr, rootF, defDirSlot,
    cstrEq, List.range_succ, List.range_zero, List.find?, List.replicate_succ,
    List.head?_cons, List.tail_cons, hd]
  rw [findFileRW_dirF]
  norm_num [diskBlockD_sysF3 fsz e1 d4, decLongs_idxF e1 he,
    walk_first e1 offset ho, diskBlockD_sysF4 fsz e1 d4]

/-- Evaluation of `cs1550_write` on the one-file mount state for an
in-bounds single-block region: the loop stores the buffer's bytes at
positions `o..o + b.length - 1` of the data block, and the persisted state
is again a one-file mount state whose recorded size is
`max fsz (b.length + o)`. -/
theorem write_sysF_firstblock (fsz : Nat) (b : List Nat) (o : Nat)
    (hb : b ≠ []) (hf : fsz < 256 ^ 8) (ho : o ≤ fsz) (hreg : o + b.length ≤ 512) :
    cs1550_write (sysF fsz 0 zeros512) pathDFT b b.length o =
      (toInt32 b.length, sysF (max fsz (b.length + o)) 0 (setSeq zeros512 o b)) := by
  have hd : decodeDir (encodeDir (dirF fsz)) = dirF fsz := decodeDir_dirF fsz hf
  have hlen : b.length ≠ 0 := by simpa using hb
  have ho512 : o ≤ 512 := by
    have : 1 ≤ b.length := Nat.one_le_iff_ne_zero.mpr hlen
    omega
  have hwl : writeLoop b ⟨sysF fsz 0 zeros512, idxF 0, 4, 0, zeros512, o⟩ =
      ⟨sysF fsz 0 zeros512, idxF 0, 4, 0, setSeq zeros512 o b, o + b.length⟩ :=
    writeLoop_inblock b _ (by simpa using hreg)
  simp only [cs1550_write, parse_DFT, hlen, if_false]
  norm_num [sysF_disk0, get_block_sysF1, decodeRoot_rootB, findIdxOr, rootF, defDirSlot,
    strneqB, List.range_succ, List.range_zero, List.find?, List.replicate_succ,
    List.head?_cons, List.tail_cons, hd]
  norm_num [dirF, defFileSlot, strneqB, List.range_succ, List.range_zero, List.find?,
    List.replicate_succ, List.head?_cons, List.tail_cons, Nat.not_lt.mpr ho]
  rw [diskBlockD_sysF3, decLongs_idxF 0 (by norm_num), walk_first 0 o ho512]
  dsimp only
  rw [diskBlockD_sysF4, hwl]
  dsimp only
  simp only [write_disk_block]
  norm_num
  rw [show sysF (max fsz (b.length + o)) 0 (setSeq zeros512 o b) =
      ⟨fun n =>
        if n = 0 then rootB
        else if n = 1 then encodeDir (dirF (max fsz (b.length + o)))
        else if n = 3 then encodeLongs (idxF 0)
        else if n = 4 then setSeq zeros512 o b
        else zeros512, bmF⟩ from rfl]
  congr 1
  · funext m
    by_cases h4 : m = 4
    · simp [h4, sysF]
    · by_cases h3 : m = 3
      · simp [h4, h3, sysF, idxF]
      · by_cases h1 : m = 1
        · simp [h4, h3, h1, sysF, dirF, List.replicate_succ]
        · by_cases h0 : m = 0
          · simp [h4, h3, h1, h0, sysF]
          · simp [h4, h3, h1, h0, sysF]

/-- The return value of `cs1550_write` on the one-file mount state:
`-EPERM` for a zero size, `-EFBIG` when the offset exceeds the stored
`fsize`, and otherwise the requested size truncated through `int`. -/
theorem write_sysF_fst (fsz e1 : Nat) (d4 buf : List Nat) (size offset : Nat)
    (hf : fsz < 256 ^ 8) :
    (cs1550_write (sysF fsz e1 d4) pathDFT buf size offset).fst =
      if size = 0 then -1
      else if offset > fsz then -27
      else toInt32 size := by
  have hd : decodeDir (encodeDir (dirF fsz)) = dirF fsz := decodeDir_dirF fsz hf
  by_cases hs : size = 0
  · simp [cs1550_write, hs]
  · simp only [cs1550_write, parse_DFT, hs, if_false]
    norm_num [sysF_disk0, get_block_sysF1, decodeRoot_rootB, findIdxOr, rootF, defDirSlot,
      strneqB, List.range_succ, List.range_zero, List.find?, List.replicate_succ,
      List.head?_cons, List.tail_cons, hd]
    norm_num [dirF, defFileSlot, strneqB, List.range_succ, List.range_zero, List.find?,
      List.replicate_succ, List.head?_cons, List.tail_cons]
    by_cases ho : offset > fsz
    · simp [ho]
    · simp [ho, write_disk_block, Nat.not_lt.mpr (Nat.not_lt.mp ho)]

/-! The claims. -/

/-- C1, counterexample.  The write/read round trip fails as soon as the
buffer contains a zero byte: on a fresh file, `write` of the single byte 0
at offset 0 succeeds and returns 1, but the following `read` of 1 byte at
offset 0 delivers nothing into the buffer (the copy loop's condition
`file_block->data[cur_pos] != 0` treats the stored NUL as end of data), so
the bytes read are not the bytes written. -/
theorem c1_roundtrip_zero_byte_cex :
    (cs1550_write (sysF 0 0 zeros512) pathDFT [0] 1 0).fst = 1 ∧
    (cs1550_read (cs1550_write (sysF 0 0 zeros512) pathDFT [0] 1 0).snd pathDFT 1 0).snd
      ≠ [0] := by
  exact ⟨by decide, by decide⟩

/-- C1, amended.  The round trip does hold when every byte of the buffer is
a nonzero byte value and the written region lies inside the first data
block (`offset + n ≤ 512`): `write(path, b, n, o)` returns `n`, and the
immediately following `read(path, buf, n, o)` returns `n` with exactly the
bytes of `b` delivered. -/
theorem c1_roundtrip_amended (fsz o : Nat) (b : List Nat)
    (hb : b ≠ []) (hnz : ∀ x ∈ b, 0 < x ∧ x < 256) (hf : fsz < 256 ^ 8)
    (ho : o ≤ fsz) (hreg : o + b.length ≤ 512) :
    (cs1550_write (sysF fsz 0 zeros512) pathDFT b b.length o).fst = (b.length : Int) ∧
    cs1550_read (cs1550_write (sysF fsz 0 zeros512) pathDFT b b.length o).snd
      pathDFT b.length o = ((b.length : Int), b) := by
  have hlen : b.length ≠ 0 := by simpa using hb
  have hsmall : b.length < 2147483648 := by omega
  rw [write_sysF_firstblock fsz b o hb hf ho hreg]
  refine ⟨toInt32_small _ hsmall, ?_⟩
  have hgf : max fsz (b.length + o) < 256 ^ 8 := by
    apply max_lt hf
    norm_num
    omega
  rw [read_sysF_firstblock (max fsz (b.length + o)) 0 (setSeq zeros512 o b) b.length o
    hlen hgf (by norm_num) (by omega)]
  have hclamp : ¬ (b.length + o > max fsz (b.length + o)) := by
    simp [Nat.le_max_right]
  simp only [hclamp, if_neg, if_false]
  rw [readLoop_delivers b _ (idxF 0) o 0 (setSeq zeros512 o b) [] (by omega)
    (fun i hi => setSeq_getD_at b zeros512 o i hi (by simp [zeros512]; omega))
    (fun x hx => by have := hnz x hx; omega)]
  rw [toInt32_small _ hsmall]
  simp

/-- C1, witness for the amended round trip at `fsz = 5`, `o = 2`,
`b = [65, 66]`. -/
theorem c1_roundtrip_amended_witness :
    (cs1550_write (sysF 5 0 zeros512) pathDFT [65, 66] (List.length [65, 66]) 2).fst =
      ((List.length [65, 66] : Nat) : Int) ∧
    cs1550_read (cs1550_write (sysF 5 0 zeros512) pathDFT [65, 66] (List.length [65, 66]) 2).snd
      pathDFT (List.length [65, 66]) 2 = (((List.length [65, 66] : Nat) : Int), [65, 66]) :=
  c1_roundtrip_amended 5 2 [65, 66] (by decide) (by decide) (by norm_num) (by norm_num)
    (by norm_num)

/-- C2.  A write of two bytes `[65, 66]` at offset 512 to a file with
`fsize = 512` whose index block lists blocks 4 and 5: the claim (and the
spec's boundary rule) requires the first byte 65 to land at position 0 of
the block at index `512 / 512 = 1` (block 5).  Instead the locating loop
accepts `offset <= 512` at index 0 and starts at position 512 of block 4 —
one past its 512 bytes, so the store is lost — and only the second byte 66
lands at position 0 of block 5: block 4 is unchanged and block 5 starts
with 66, not 65. -/
theorem c2_boundary_write_bug :
    (cs1550_write (sysF 512 5 (List.replicate 512 7)) pathDFT [65, 66] 2 512).snd.disk 4
      = List.replicate 512 7 ∧
    ((cs1550_write (sysF 512 5 (List.replicate 512 7)) pathDFT [65, 66] 2 512).snd.disk 5).getD
      0 0 = 66 := by
  exact ⟨by decide, by decide⟩

/-- C3, counterexample.  File with `fsize = 700` but a single data block
(entry 1 of the index block is 0); `read` of 50 bytes at offset 600 meets
the zero `entries[]` slot while locating the start block, with 0 bytes
delivered.  The claim says the read stops there and returns the bytes
delivered so far; instead the code goes on to read from block number 0 —
the root block — delivers one byte of root-directory data (stopping at the
root's next NUL byte), and returns the full clamped size 50: the return
value is not the number of bytes delivered. -/
theorem c3_short_read_cex :
    cs1550_read (sysF 700 0 zeros512) pathDFT 50 600 = (50, [1]) ∧
    (cs1550_read (sysF 700 0 zeros512) pathDFT 50 600).fst ≠
      ((cs1550_read (sysF 700 0 zeros512) pathDFT 50 600).snd.length : Int) := by
  exact ⟨by decide, by decide⟩

/-- C3, amended.  On that same state, the return value of the read at
offset 600 is always the clamped size — `min size 612` (the clamp uses the
offset as already reduced by the locating loop, here 88, so the cap is
`700 - 88 = 612`) — regardless of how many bytes the copy loop delivered
before stopping. -/
theorem c3_clamped_return (size : Nat) (h1 : size ≠ 0) (h2 : size < 2147483648) :
    (cs1550_read (sysF 700 0 zeros512) pathDFT size 600).fst = ((min size 612 : Nat) : Int) := by
  have hd : decodeDir (encodeDir (dirF 700)) = dirF 700 := decodeDir_dirF 700 (by norm_num)
  simp only [cs1550_read, parse_DFT, h1, if_false]
  norm_num [sysF_disk0, get_block_sysF1, decodeRoot_rootB, findIdxOr, rootF, defDirSlot,
    cstrEq, List.range_succ, List.range_zero, List.find?, List.replicate_succ,
    List.head?_cons, List.tail_cons, hd]
  rw [findFileRW_dirF]
  rw [diskBlockD_sysF3, decLongs_idxF 0 (by norm_num), walk_c3]
  norm_num
  by_cases hc : size ≤ 612
  · have hng : ¬ (700 < size + 88) := by omega
    simp only [hng, if_false, if_neg hng]
    rw [toInt32_small _ h2]
    omega
  · have hgt : 700 < size + 88 := by omega
    simp only [hgt, if_pos hgt]
    simp only [if_true]
    rw [show ((612 : Int).toNat) = 612 from rfl, toInt32_small 612 (by norm_num)]
    omega

/-- C3, witness for the amended claim at `size = 50`. -/
theorem c3_clamped_return_witness :
    (cs1550_read (sysF 700 0 zeros512) pathDFT 50 600).fst = ((min 50 612 : Nat) : Int) :=
  c3_clamped_return 50 (by decide) (by decide)

/-- C4.  Read past end of file: on a file with `fsize = 5` (content
`Hello`), `read` of 3 bytes at offset 10 transfers no bytes but does not
return 0.  The clamp `size = file_size - offset` is computed in `size_t`
and underflows to `2^64 - 5`; truncated through the `int` return type the
call returns `-5` — an error value — instead of the claimed 0. -/
theorem c4_read_past_eof_bug :
    cs1550_read (sysF 5 0 helloBlock) pathDFT 3 10 = (-5, []) := by decide

/-- C5.  Write error cases on an existing file with stored size `fsz`
(sizes below `2^31` so that the `int` return can carry them):
the call returns `-EPERM` exactly when `size = 0`; with a nonzero size it
returns `-EFBIG` at `offset = fsize + 1`; and an append exactly at
`offset = fsize` is accepted and returns `size`. -/
theorem c5_write_error_cases (fsz e1 : Nat) (d4 buf : List Nat) (size offset : Nat)
    (hf : fsz < 256 ^ 8) (hsize : size < 2147483648) :
    ((cs1550_write (sysF fsz e1 d4) pathDFT buf size offset).fst = -1 ↔ size = 0) ∧
    (size ≠ 0 → offset = fsz + 1 →
      (cs1550_write (sysF fsz e1 d4) pathDFT buf size offset).fst = -27) ∧
    (size ≠ 0 → offset = fsz →
      (cs1550_write (sysF fsz e1 d4) pathDFT buf size offset).fst = (size : Int)) := by
  rw [write_sysF_fst fsz e1 d4 buf size offset hf]
  refine ⟨⟨?_, ?_⟩, ?_, ?_⟩
  · intro h
    by_cases hs : size = 0
    · exact hs
    · simp only [hs, if_false] at h
      by_cases ho : offset > fsz
      · simp [ho] at h
      · rw [if_neg ho, toInt32_small _ hsize] at h
        omega
  · intro h
    simp [h]
  · intro hs h
    simp [hs, h]
  · intro hs h
    have : ¬ (offset > fsz) := by omega
    rw [if_neg hs, if_neg this, toInt32_small _ hsize]

/-- C5, witness at `fsz = 5`, `size = 1`, `offset = 5` (the append case). -/
theorem c5_write_error_cases_witness :
    ((cs1550_write (sysF 5 0 helloBlock) pathDFT [65] 1 5).fst = -1 ↔ (1 : Nat) = 0) ∧
    ((1 : Nat) ≠ 0 → (5 : Nat) = 5 + 1 →
      (cs1550_write (sysF 5 0 helloBlock) pathDFT [65] 1 5).fst = -27) ∧
    ((1 : Nat) ≠ 0 → (5 : Nat) = 5 →
      (cs1550_write (sysF 5 0 helloBlock) pathDFT [65] 1 5).fst = ((1 : Nat) : Int)) :=
  c5_write_error_cases 5 0 helloBlock [65] 1 5 (by norm_num) (by norm_num)

/-- C6.  On a fresh image, `mknod "/d/f.t"` with no directory `d` in the
root returns 0, not `-ENOENT`: the directory search loop has no miss
check, so the zero-filled slot at index `nDirectories` is read, its
`nStartBlock` 0 sends `get_dir` to block 0, the root block itself decodes
as an empty subdirectory, and the file is created inside it (clobbering
the root). -/
theorem c6_mknod_missing_dir_bug : (cs1550_mknod freshSys pathDFT).fst = 0 := by decide

/-- C7.  The bounds checks are off by one: `set_bit(10240)` is accepted
(returns 0) and sets a bit in the bitmap array (byte 1280 changes), and
`write_disk_block(10240, ...)`'s guard also passes, although block 10240
is outside the 10240-block image (valid blocks are 0..10239). -/
theorem c7_bounds_check_off_by_one_bug :
    (set_bit 10240 bmF).fst = 0 ∧ (set_bit 10240 bmF).snd 1280 ≠ bmF 1280 ∧
    (write_disk_block freshSys 10240 zeros512).fst = 0 := by
  exact ⟨by decide, by decide, by decide⟩

/-- C8.  On an initialized bitmap (its own last bit set, as every mount
leaves it), `find_free_block` does not modify the state, two consecutive
calls return the same block number, the returned value is the global index
of the first clear bit (scanning bytes upward, MSB first inside each
byte), and when no bit of the 12288-bit map is clear the call returns
`-ENOSPC`. -/
theorem c8_find_free_block_spec (s : Sys) (hinit : is_bit_set (s.bitmap 1535) 7 = true) :
    (find_free_block s).snd = s ∧
    (find_free_block (find_free_block s).snd).fst = (find_free_block s).fst ∧
    (∀ k, k < 12288 → bitClear s.bitmap k →
      (∀ j, j < k → ¬ bitClear s.bitmap j) → (find_free_block s).fst = (k : Int)) ∧
    ((∀ k, k < 12288 → ¬ bitClear s.bitmap k) → (find_free_block s).fst = -28) := by
  have h1 : find_free_block s = (scanBits s.bitmap 12288 0, s) := by
    simp [find_free_block, hinit]
  refine ⟨by rw [h1], by simp [h1], ?_, ?_⟩
  · intro k hk hc hmin
    rw [h1]
    exact scanBits_found s.bitmap 12288 0 k (Nat.zero_le k) (by omega) hc
      (fun j _ hj2 => hmin j hj2)
  · intro hnone
    rw [h1]
    exact scanBits_none s.bitmap 12288 0 (fun j _ hj2 => hnone j (by omega))

/-- C8, witness on the fresh bitmap: the state is unmodified and the first
clear bit is block 1. -/
theorem c8_find_free_block_spec_witness :
    (find_free_block freshSys).snd = freshSys ∧ (find_free_block freshSys).fst = 1 := by
  refine ⟨(c8_find_free_block_spec freshSys (by decide)).1,
    (c8_find_free_block_spec freshSys (by decide)).2.2.1 1 (by decide) (by decide) ?_⟩
  intro j hj
  have hj0 : j = 0 := by omega
  subst hj0
  decide

/-- C9.  A read of zero bytes returns 0 for every mount state, every path
string and every offset: the `size == 0` check is the first statement of
`cs1550_read`, before any path parsing or validation, so no ill-formed or
nonexistent path can produce `-EISDIR`, `-ENAMETOOLONG` or `-ENOENT` for a
zero-size read. -/
theorem c9_zero_size_read (s : Sys) (path : List Nat) (offset : Nat) :
    cs1550_read s path 0 offset = (0, []) := by
  simp [cs1550_read]

/-- C10.  When a write to an existing file fails with `-EFBIG`
(`offset > fsize`), the mount state — the disk image — is returned
unchanged: the `fsize` update performed on the in-memory subdirectory copy
during the file search is discarded, and no `write_disk_block` call has
happened before the check. -/
theorem c10_efbig_no_persist (fsz e1 : Nat) (d4 buf : List Nat) (size offset : Nat)
    (hs : size ≠ 0) (hf : fsz < 256 ^ 8) (ho : offset > fsz) :
    cs1550_write (sysF fsz e1 d4) pathDFT buf size offset = (-27, sysF fsz e1 d4) := by
  have hd : decodeDir (encodeDir (dirF fsz)) = dirF fsz := decodeDir_dirF fsz hf
  simp only [cs1550_write, parse_DFT, hs, if_false]
  norm_num [sysF_disk0, get_block_sysF1, decodeRoot_rootB, findIdxOr, rootF, defDirSlot,
    strneqB, List.range_succ, List.range_zero, List.find?, List.replicate_succ,
    List.head?_cons, List.tail_cons, hd]
  norm_num [dirF, defFileSlot, strneqB, List.range_succ, List.range_zero, List.find?,
    List.replicate_succ, List.head?_cons, List.tail_cons, ho]

/-- C10, witness at `fsz = 5`, `offset = 7`. -/
theorem c10_efbig_no_persist_witness :
    cs1550_write (sysF 5 0 helloBlock) pathDFT [65] 1 7 = (-27, sysF 5 0 helloBlock) :=
  c10_efbig_no_persist 5 0 helloBlock [65] 1 7 (by decide) (by norm_num) (by norm_num)

end CS1550
